import Mathlib

/-!
Verification of the DeepCpG model-assembly and training-script plumbing
(`deepcpg/net.py`, `scripts/train.py`).

The Python code builds lists of named Keras layers, assembles them into a
`CpgGraph` model, derives per-output losses, copies weights between models by
regex, auto-tunes the batch size, computes mask-aware sample weights, splits
evaluation outputs into classification/regression groups, and throttles
progress messages.  Everything here is a shallow embedding of that code:
Keras layer constructors become an inductive `Layer` (their constant
arguments such as `init='glorot_uniform'` and `border_mode='same'` are fixed
in the source and omitted), the graph model becomes explicit lists of named
inputs/nodes/outputs, Python dicts become association lists with insertion
order, raised exceptions become `Option`/`none`, and floats that only ever
hold exact decimals become `Rat`.
-/

namespace DeepCpG

/-- Keras layer constructors used by `net.py`, with the arguments the source
actually varies.  `conv1D`/`conv2D` carry the `WeightRegularizer(l1, l2)`
coefficients; `init`, `border_mode` are the constants noted above. -/
inductive Layer where
  | dropout (p : Rat)
  | conv1D (nb_filter filter_length : Nat) (activation : String) (l1 l2 : Rat)
  | maxPool1D (pool_length : Nat)
  | conv2D (nb_filter nb_row nb_col : Nat) (activation : String) (l1 l2 : Rat)
  | maxPool2D (pool_row pool_col : Nat)
  | flatten
  | dense (output_dim : Nat) (activation : String)
  | batchNorm
  | activation (name : String)
  deriving DecidableEq

/-- Parameters of the sequence / CpG convolutional branches
(`net_params` attributes read by `seq_layers` and `cpg_layers`).
Python truthiness of the float `drop_in`/`drop_out` is `≠ 0`,
of the int `nb_hidden` is `≠ 0`. -/
structure BranchParams where
  drop_in : Rat
  drop_out : Rat
  nb_filter : List Nat
  filter_len : List Nat
  pool_len : List Nat
  nb_hidden : Nat
  batch_norm : Bool
  activation : String
  l1 : Rat
  l2 : Rat
  deriving DecidableEq

/-- Parameters read by `joint_layers` and `target_layers`. -/
structure HeadParams where
  nb_hidden : Nat
  batch_norm : Bool
  activation : String
  drop_out : Rat
  deriving DecidableEq

/-- One conv+pool block of `cpg_layers`: the body of the
`for l in range(nb_layer)` loop (2-D convolution with `nb_row=1`,
`nb_col=filter_len[l]`, then 2-D max-pooling `(1, pool_len[l])`). -/
def cpg_block (p : BranchParams) (l : Nat) : List (String × Layer) :=
  [("c" ++ toString (l + 1),
    Layer.conv2D (p.nb_filter.getD l 0) 1 (p.filter_len.getD l 0) p.activation p.l1 p.l2),
   ("p" ++ toString (l + 1),
    Layer.maxPool2D 1 (p.pool_len.getD l 0))]

/-- `net.cpg_layers(params)`. -/
def cpg_layers (p : BranchParams) : List (String × Layer) :=
  (if p.drop_in ≠ 0 then [("xd", Layer.dropout p.drop_in)] else [])
  ++ (List.range p.nb_filter.length).flatMap (cpg_block p)
  ++ [("f1", Layer.flatten)]
  ++ (if p.drop_out ≠ 0 then [("f1d", Layer.dropout p.drop_out)] else [])
  ++ (if p.nb_hidden ≠ 0 then
        [("h1", Layer.dense p.nb_hidden "linear")]
        ++ (if p.batch_norm then [("h1b", Layer.batchNorm)] else [])
        ++ [("h1a", Layer.activation p.activation)]
        ++ (if p.drop_out ≠ 0 then [("h1d", Layer.dropout p.drop_out)] else [])
      else [])

/-- One conv+pool block of `seq_layers`: 1-D convolution with
`filter_length=filter_len[l]`, then 1-D max-pooling `pool_len[l]`. -/
def seq_block (p : BranchParams) (l : Nat) : List (String × Layer) :=
  [("c" ++ toString (l + 1),
    Layer.conv1D (p.nb_filter.getD l 0) (p.filter_len.getD l 0) p.activation p.l1 p.l2),
   ("p" ++ toString (l + 1),
    Layer.maxPool1D (p.pool_len.getD l 0))]

/-- `net.seq_layers(params)`. -/
def seq_layers (p : BranchParams) : List (String × Layer) :=
  (if p.drop_in ≠ 0 then [("xd", Layer.dropout p.drop_in)] else [])
  ++ (List.range p.nb_filter.length).flatMap (seq_block p)
  ++ [("f1", Layer.flatten)]
  ++ (if p.drop_out ≠ 0 then [("f1d", Layer.dropout p.drop_out)] else [])
  ++ (if p.nb_hidden ≠ 0 then
        [("h1", Layer.dense p.nb_hidden "linear")]
        ++ (if p.batch_norm then [("h1b", Layer.batchNorm)] else [])
        ++ [("h1a", Layer.activation p.activation)]
        ++ (if p.drop_out ≠ 0 then [("h1d", Layer.dropout p.drop_out)] else [])
      else [])

/-- `net.joint_layers(params)`. -/
def joint_layers (p : HeadParams) : List (String × Layer) :=
  [("h1", Layer.dense p.nb_hidden "linear")]
  ++ (if p.batch_norm then [("h1b", Layer.batchNorm)] else [])
  ++ [("h1a", Layer.activation p.activation)]
  ++ (if p.drop_out ≠ 0 then [("h1d", Layer.dropout p.drop_out)] else [])

/-- `net.target_layers(params)`. -/
def target_layers (p : HeadParams) : List (String × Layer) :=
  (if p.nb_hidden ≠ 0 then
     [("h1", Layer.dense p.nb_hidden "linear")]
     ++ (if p.batch_norm then [("h1b", Layer.batchNorm)] else [])
     ++ [("h1a", Layer.activation p.activation)]
     ++ (if p.drop_out ≠ 0 then [("h1d", Layer.dropout p.drop_out)] else [])
   else [])
  ++ [("o", Layer.dense 1 "sigmoid")]

/-- The `CpgGraph` model as assembled by `net.build`: named inputs (with
their `input_shape`), named nodes (each recording the `input`/`inputs` nodes
it is wired to and its layer), and named outputs (each recording its input
node).  Keras mutation (`add_input`/`add_node`/`add_output`) becomes
appending. -/
structure GraphModel where
  inputs : List (String × List Nat)
  nodes : List (String × (List String × Layer))
  outputs : List (String × String)
  deriving DecidableEq

/-- `model.add_input(name, input_shape=shape)`. -/
def add_input (m : GraphModel) (name : String) (shape : List Nat) : GraphModel :=
  { m with inputs := m.inputs ++ [(name, shape)] }

/-- `model.add_node(...)`.  The source calls `add_node(inputs=prev_nodes, ...)`
when `len(prev_nodes) > 1` and `add_node(input=prev_nodes[0], ...)` otherwise;
both wire the node to exactly `prev_nodes`, which is what is recorded here. -/
def add_node (m : GraphModel) (name : String) (ins : List String) (layer : Layer) :
    GraphModel :=
  { m with nodes := m.nodes ++ [(name, (ins, layer))] }

/-- `model.add_output(input=inp, name=name)`. -/
def add_output (m : GraphModel) (name : String) (inp : String) : GraphModel :=
  { m with outputs := m.outputs ++ [(name, inp)] }

/-- `net.add_layers(model, layers, prev_nodes, prefix)`: chains the named
layers onto the model, each node named `prefix + '_' + name` and wired to the
previous nodes; returns the updated model and the final `prev_nodes`. -/
def add_layers (m : GraphModel) (layers : List (String × Layer))
    (prev_nodes : List String) (pfx : String) : GraphModel × List String :=
  match layers with
  | [] => (m, prev_nodes)
  | (name, ly) :: rest =>
      let cur_node := pfx ++ "_" ++ name
      add_layers (add_node m cur_node prev_nodes ly) rest [cur_node] pfx

/-- The per-target loop of `net.build`: for each target, chain
`target_layers` onto the branch nodes and register the output
`target + '_y'` fed by the last node. -/
def add_targets (m : GraphModel) (tp : HeadParams) (branch_nodes : List String) :
    List String → GraphModel
  | [] => m
  | t :: rest =>
      let r := add_layers m (target_layers tp) branch_nodes t
      add_targets (add_output r.1 (t ++ "_y") (r.2.headD "")) tp branch_nodes rest

/-- The parameters object consumed by `net.build`: `params.seq`,
`params.cpg`, `params.joint` are absent (`None`, falsy) or present,
`params.target` always present. -/
structure NetParams where
  seq : Option BranchParams
  cpg : Option BranchParams
  joint : Option HeadParams
  target : HeadParams
  deriving DecidableEq

/-- `net.build(params, targets, seq_len, cpg_len, nb_unit=...)` (graph
assembly; the `compile=True` step only attaches loss/optimizer and is modelled
separately by `loss_from_ids`).  The `assert seq_len is not None` /
`assert cpg_len is not None` failures become `none`.  `nb_unit` defaults to
`len(targets)` when the CpG branch is present and `nb_unit is None`. -/
def build (params : NetParams) (targets : List String)
    (seq_len cpg_len : Option Nat) (nb_unit : Option Nat) : Option GraphModel :=
  let model0 : GraphModel := { inputs := [], nodes := [], outputs := [] }
  let s1 : Option (GraphModel × List String) :=
    match params.seq, seq_len with
    | none, _ => some (model0, [])
    | some sp, some sl =>
        some (add_layers (add_input model0 "s_x" [sl, 4]) (seq_layers sp) ["s_x"] "s")
    | some _, none => none
  match s1 with
  | none => none
  | some (m1, bn1) =>
    let s2 : Option (GraphModel × List String) :=
      match params.cpg, cpg_len with
      | none, _ => some (m1, bn1)
      | some cp, some cl =>
          let nbu := nb_unit.getD targets.length
          let r := add_layers (add_input m1 "c_x" [2, nbu, cl]) (cpg_layers cp) ["c_x"] "c"
          some (r.1, bn1 ++ r.2)
      | some _, none => none
    match s2 with
    | none => none
    | some (m2, bn2) =>
      let r3 : GraphModel × List String :=
        match params.joint with
        | some jp =>
            if 0 < jp.nb_hidden then add_layers m2 (joint_layers jp) bn2 "j"
            else (m2, bn2)
        | none => (m2, bn2)
      some (add_targets r3.1 params.target r3.2 targets)

/-- The node list contributed by one `add_layers` call: first node wired to
`prev`, each further node wired to its predecessor. -/
def chain (pfx : String) (prev : List String) :
    List (String × Layer) → List (String × (List String × Layer))
  | [] => []
  | (n, ly) :: rest => (pfx ++ "_" ++ n, (prev, ly)) :: chain pfx [pfx ++ "_" ++ n] rest

/-- The `prev_nodes` value returned by an `add_layers` call. -/
def chainLast (pfx : String) (prev : List String) : List (String × Layer) → List String
  | [] => prev
  | (n, _) :: rest => chainLast pfx [pfx ++ "_" ++ n] rest

/-- The branch output nodes `build` collects into `branch_nodes` before the
joint branch: the last sequence-branch node and/or the last CpG-branch node. -/
def branchNodesOf (params : NetParams) : List String :=
  (match params.seq with
   | none => []
   | some sp => chainLast "s" ["s_x"] (seq_layers sp))
  ++ (match params.cpg with
      | none => []
      | some cp => chainLast "c" ["c_x"] (cpg_layers cp))

/-- The nodes the joint branch contributes (empty unless
`params.joint and params.joint.nb_hidden > 0`). -/
def jointChain (params : NetParams) (bn : List String) :
    List (String × (List String × Layer)) :=
  match params.joint with
  | some jp => if 0 < jp.nb_hidden then chain "j" bn (joint_layers jp) else []
  | none => []

/-- The nodes the per-target heads are wired to: the last joint node when the
joint branch was added, the raw branch nodes otherwise. -/
def headNodes (params : NetParams) (bn : List String) : List String :=
  match params.joint with
  | some jp => if 0 < jp.nb_hidden then chainLast "j" bn (joint_layers jp) else bn
  | none => bn

/-- The nodes contributed by the per-target output heads. -/
def targetsChain (tp : HeadParams) (bn : List String) (targets : List String) :
    List (String × (List String × Layer)) :=
  targets.flatMap (fun t => chain t bn (target_layers tp))

/-- Python `dict` assignment `d[k] = v` on an association list kept in
insertion order: update the (first) binding of `k` if present, else append. -/
def dinsert : List (String × String) → String → String → List (String × String)
  | [], k, v => [(k, v)]
  | p :: rest, k, v => if p.1 = k then (k, v) :: rest else p :: dinsert rest k v

/-- The `spec` argument of `net.loss_from_ids`: `None`, a dict, or any other
single value (used as one loss string for every output). -/
inductive LossSpec where
  | noSpec
  | dict (kvs : List (String × String))
  | single (v : String)
  deriving DecidableEq

/-- Python `x.startswith(pat)`: the first `len(pat)` characters of `x` equal
`pat`. -/
def startswith (x pat : String) : Bool :=
  decide (x.data.take pat.data.length = pat.data)

/-- The default loss for an output id in `loss_from_ids`:
ids starting with `'s'` get `'mse'`, all others `'binary_crossentropy'`. -/
def default_loss (x : String) : String :=
  if startswith x "s" then "mse" else "binary_crossentropy"

/-- The first loop of `loss_from_ids`: `for x in ids: loss[x] = default`. -/
def loss_base (d : List (String × String)) : List String → List (String × String)
  | [] => d
  | x :: xs => loss_base (dinsert d x (default_loss x)) xs

/-- The dict-spec loop of `loss_from_ids`:
`for k, v in spec.items(): loss[k] = v`. -/
def loss_override (d : List (String × String)) :
    List (String × String) → List (String × String)
  | [] => d
  | kv :: rest => loss_override (dinsert d kv.1 kv.2) rest

/-- `net.loss_from_ids(ids, spec)`. -/
def loss_from_ids (ids : List String) (spec : LossSpec) : List (String × String) :=
  let loss := loss_base [] ids
  match spec with
  | .noSpec => loss
  | .dict kvs => loss_override loss kvs
  | .single v => loss.map (fun p => (p.1, v))

/-- What `model_from_list` loads: a JSON architecture plus a weights file
(`model_from_json(fnames[0], fnames[1])`), or one pickled blob
(`model_from_pickle(fnames[0])`). -/
inductive LoadSource where
  | json (arch_file weights_file : String)
  | pickle (file : String)
  deriving DecidableEq

/-- `net.model_from_list(fnames)`.  Indexing `fnames[0]` on an empty list
raises `IndexError`, modelled as `none`. -/
def model_from_list (fnames : List String) : Option LoadSource :=
  if fnames.length = 2 then
    some (.json (fnames.getD 0 "") (fnames.getD 1 ""))
  else
    (fnames.get? 0).map .pickle

/-- The serializable state of a model, for the writing direction:
its JSON architecture (`model.to_json()`) and its weights. -/
structure ModelData where
  arch : String
  weights : String
  deriving DecidableEq

/-- Contents written to one file by the saving functions. -/
inductive FileContent where
  | jsonArch (arch : String)
  | weightsBlob (w : String)
  | pickleBlob (m : ModelData)
  deriving DecidableEq

/-- `net.model_to_json(model, json_file, weights_file)`: the list of
(file, contents) writes it performs. -/
def model_to_json (m : ModelData) (json_file : String) (weights_file : Option String) :
    List (String × FileContent) :=
  [(json_file, .jsonArch m.arch)]
  ++ (match weights_file with
      | some w => [(w, .weightsBlob m.weights)]
      | none => [])

/-- `net.model_to_pickle(model, path)`: one serialized blob. -/
def model_to_pickle (m : ModelData) (path : String) : List (String × FileContent) :=
  [(path, .pickleBlob m)]

/-- Modelled from the spec: `deepcpg.io.MASK`, the sentinel value marking
masked (unobserved) labels, which the sample weights must zero out.  The
`io` module is not under `src/`; DeepCpG uses `-1`.  Nothing below depends
on the particular value. -/
def MASK : Rat := -1

/-- One `sample_weights[y == k] = v` masked assignment from
`get_sample_weights`. -/
def apply_class_weight (y w : List Rat) (k v : Rat) : List Rat :=
  (y.zip w).map (fun p => if p.1 = k then v else p.2)

/-- `train.get_sample_weights(y, weight_classes)`: start from all-ones
weights and overwrite each class listed in `class_weights` (always
`MASK ↦ 0`; with `weight_classes` also `0 ↦ t`, `1 ↦ 1 - t` for `t` the mean
of the unmasked labels). -/
def get_sample_weights (y : List Rat) (weight_classes : Bool) : List Rat :=
  let class_weights : List (Rat × Rat) :=
    if weight_classes then
      let unmasked := y.filter (fun a => a ≠ MASK)
      let t : Rat := unmasked.sum / unmasked.length
      [(MASK, 0), (0, t), (1, 1 - t)]
    else [(MASK, 0)]
  class_weights.foldl (fun w kv => apply_class_weight y w kv.1 kv.2)
    (y.map (fun _ => (1 : Rat)))

/-- `train.check_weights(model, y, weights)`: for every output, the weights
are 0 exactly on masked labels and 1 elsewhere (the two `assert`s, as one
boolean). -/
def check_weights (output_order : List String)
    (y w : List (String × List Rat)) : Bool :=
  output_order.all (fun o =>
    (((y.lookup o).getD []).zip ((w.lookup o).getD [])).all (fun p =>
      if p.1 = MASK then decide (p.2 = 0) else decide (p.2 = 1)))

/-- The weights dict built by `train.read_data`:
`weights[k] = get_sample_weights(data[k])` for each model output `k`. -/
def read_data_weights (data : List (String × List Rat))
    (output_order : List String) : List (String × List Rat) :=
  output_order.map (fun k => (k, get_sample_weights ((data.lookup k).getD []) false))

/-- Modelled from the spec: `deepcpg.utils.filter_regex(k, regexs)` (the
`utils` module is not under `src/`).  Per the spec's "regex-based
weight-copying between named sub-graphs" and the call sites, it returns the
(possibly empty) sublist of regexs matching the name `k`; a regex is embedded
as its match predicate on strings. -/
def filter_regex (k : String) (regexs : List (String → Bool)) : List (String → Bool) :=
  regexs.filter (fun r => r k)

/-- `dst.nodes[k].set_weights(...)`: replace the weights stored at key `k`
(keys are untouched). -/
def setWeights {α : Type} (nodes : List (String × α)) (k : String) (w : α) :
    List (String × α) :=
  nodes.map (fun p => if p.1 = k then (p.1, w) else p)

/-- The loop of `net.copy_weights`: iterate over `src.nodes` in order; when
the name matches some regex and exists in `dst.nodes`, copy the weights and
record the name. -/
def copy_go {α : Type} (regexs : List (String → Bool)) :
    List (String × α) → List (String × α) → List (String × α) × List String
  | [], dst => (dst, [])
  | kv :: rest, dst =>
      if !(filter_regex kv.1 regexs).isEmpty && (dst.lookup kv.1).isSome then
        let r := copy_go regexs rest (setWeights dst kv.1 kv.2)
        (r.1, kv.1 :: r.2)
      else copy_go regexs rest dst

/-- `net.copy_weights(src, dst, regexs)`: returns the updated `dst.nodes`
and the list of copied node names. -/
def copy_weights {α : Type} (srcNodes dstNodes : List (String × α))
    (regexs : List (String → Bool)) : List (String × α) × List String :=
  copy_go regexs srcNodes dstNodes

/-- The candidate `(batch_size, learning_rate)` configurations of
`App.adjust_batch_size`. -/
def configs : List (Nat × Rat) :=
  [(512, 0.000125), (256, 0.00025), (128, 0.0005),
   (64, 0.001), (32, 0.001), (16, 0.001)]

/-- The loop of `App.adjust_batch_size`: skip candidates whose batch size
exceeds `nb_sample` (`continue`), return the first surviving candidate whose
`train_on_batch` call does not raise (`break`), else fall through.  Whether
`model.train_on_batch` raises is embedded as the oracle `ok` on the batch
size (the data sliced to the batch is determined by it). -/
def adjust_go (ok : Nat → Bool) (nb_sample : Nat) :
    List (Nat × Rat) → Option (Nat × Rat)
  | [] => none
  | c :: rest =>
      if c.1 > nb_sample then adjust_go ok nb_sample rest
      else if ok c.1 then some c
      else adjust_go ok nb_sample rest

/-- `App.adjust_batch_size(model, data, sample_weights)`; the Python
`(None, None)` result becomes `none`. -/
def adjust_batch_size (ok : Nat → Bool) (nb_sample : Nat) : Option (Nat × Rat) :=
  adjust_go ok nb_sample configs

/-- The fragment of `App.main` right after `adjust_batch_size` on the
auto-tuning path: when the batch size is `None` it logs an error and returns
exit code 1 (`some 1`); otherwise main continues (`none`). -/
def main_adjust_exit (ok : Nat → Bool) (nb_sample : Nat) : Option Nat :=
  match adjust_batch_size ok nb_sample with
  | none => some 1
  | some _ => none

/-- Substring containment on strings, embedding
`re.search('binary_crossentropy', v)`: the pattern is a literal with no
regex metacharacters, so `re.search` is exactly substring search. -/
def hasSubstr (s pat : String) : Bool :=
  (List.range (s.data.length + 1)).any
    (fun i => decide ((s.data.drop i).take pat.data.length = pat.data))

/-- The grouping loop of `train.eval_io`: outputs whose configured loss
contains `'binary_crossentropy'` go to `cla`, all others to `reg`. -/
def eval_split (loss : List (String × String)) : List String × List String :=
  loss.foldl
    (fun acc kv =>
      if hasSubstr kv.2 "binary_crossentropy" then (acc.1 ++ [kv.1], acc.2)
      else (acc.1, acc.2 ++ [kv.1]))
    ([], [])

/-- Result of `train.eval_io` past its NaN guard: the classification group
(evaluated with `ev.eval_funs` and `mask=io.MASK`), the regression group
(evaluated with `ev.eval_funs_regress`), and the CSV files written (each
group's file only when the group is nonempty; the metric functions
themselves live outside `src/`). -/
structure EvalIO where
  cla : List String
  reg : List String
  files : List String
  deriving DecidableEq

/-- `train.eval_io(model, y, z, out_base, targets)`, reduced to its grouping
and file-naming behaviour (`model.loss` passed as an association list). -/
def eval_io (loss : List (String × String)) (out_base : String) : EvalIO :=
  let s := eval_split loss
  { cla := s.1
    reg := s.2
    files :=
      (if s.1.length ≠ 0 then [out_base ++ "_cla.csv"] else [])
      ++ (if s.2.length ≠ 0 then [out_base ++ "_reg.csv"] else []) }

/-- The data a progress message formats: `batch_index + 1` and `nb_batch`
(the `'%5d / %d (%.1f%%)'` string renders exactly these two numbers). -/
structure ProgressMsg where
  index : Nat
  total : Nat
  deriving DecidableEq

/-- `net.progress(batch_index, nb_batch, s)`.  With `s > 0`,
`int(np.ceil(nb_batch / s))` is `(nb_batch + s - 1) / s` in `Nat`. -/
def progress (batch_index nb_batch : Nat) (s : Nat) : Option ProgressMsg :=
  let s' := max 1 ((nb_batch + s - 1) / s)
  let b := batch_index + 1
  if b = 1 ∨ b = nb_batch ∨ b % s' = 0 then some ⟨b, nb_batch⟩ else none

/-- `add_layers` leaves inputs and outputs alone and appends exactly the
`chain` of its layers to the nodes. -/
lemma add_layers_fst (ls : List (String × Layer)) :
    ∀ (m : GraphModel) (prev : List String) (pfx : String),
      (add_layers m ls prev pfx).1 =
        ⟨m.inputs, m.nodes ++ chain pfx prev ls, m.outputs⟩ := by
  induction ls with
  | nil => intro m prev pfx; simp [add_layers, chain]
  | cons hd tl ih =>
      intro m prev pfx
      obtain ⟨n, ly⟩ := hd
      simp [add_layers, chain, ih, add_node]

/-- The `prev_nodes` returned by `add_layers` is `chainLast`. -/
lemma add_layers_snd (ls : List (String × Layer)) :
    ∀ (m : GraphModel) (prev : List String) (pfx : String),
      (add_layers m ls prev pfx).2 = chainLast pfx prev ls := by
  induction ls with
  | nil => intro m prev pfx; simp [add_layers, chainLast]
  | cons hd tl ih =>
      intro m prev pfx
      obtain ⟨n, ly⟩ := hd
      simp [add_layers, chainLast, ih]

lemma targetsChain_cons (tp : HeadParams) (bn : List String) (t : String)
    (rest : List String) :
    targetsChain tp bn (t :: rest) =
      chain t bn (target_layers tp) ++ targetsChain tp bn rest := by
  simp [targetsChain]

/-- The per-target loop appends the target chains to the nodes and one
`t + '_y'` output per target, in order. -/
lemma add_targets_eq (ts : List String) :
    ∀ (m : GraphModel) (tp : HeadParams) (bn : List String),
      add_targets m tp bn ts =
        ⟨m.inputs, m.nodes ++ targetsChain tp bn ts,
         m.outputs ++ ts.map (fun t =>
           (t ++ "_y", (chainLast t bn (target_layers tp)).headD ""))⟩ := by
  induction ts with
  | nil => intro m tp bn; simp [add_targets, targetsChain]
  | cons t rest ih =>
      intro m tp bn
      simp [add_targets, ih, add_layers_fst, add_layers_snd, add_output,
        targetsChain_cons]

/-- The node chain contributed by the sequence branch of `build`. -/
def seqChain : Option BranchParams → List (String × (List String × Layer))
  | none => []
  | some sp => chain "s" ["s_x"] (seq_layers sp)

/-- The node chain contributed by the CpG branch of `build`. -/
def cpgChain : Option BranchParams → List (String × (List String × Layer))
  | none => []
  | some cp => chain "c" ["c_x"] (cpg_layers cp)

/-- Structure of every model `build` returns: the branch chains, then the
joint chain (present exactly when `params.joint and params.joint.nb_hidden
> 0`), then the per-target head chains wired to `headNodes`; one output
`t + '_y'` per target in order. -/
lemma build_some_eq (params : NetParams) (targets : List String)
    (sl cl nbu : Option Nat) (m : GraphModel)
    (h : build params targets sl cl nbu = some m) :
    m.nodes = seqChain params.seq ++ cpgChain params.cpg
        ++ jointChain params (branchNodesOf params)
        ++ targetsChain params.target (headNodes params (branchNodesOf params)) targets
    ∧ m.outputs = targets.map (fun t =>
        (t ++ "_y",
         (chainLast t (headNodes params (branchNodesOf params))
            (target_layers params.target)).headD "")) := by
  rcases hseq : params.seq with _ | sp <;> rcases sl with _ | slv <;>
    rcases hcpg : params.cpg with _ | cp <;> rcases cl with _ | clv <;>
    rcases hjoint : params.joint with _ | jp
  all_goals try (by_cases hh : 0 < jp.nb_hidden)
  all_goals
    simp_all [build, add_layers_fst, add_layers_snd,
      add_targets_eq, add_input, seqChain, cpgChain, jointChain, headNodes,
      branchNodesOf]
  all_goals (subst h; exact ⟨rfl, rfl⟩)

/-- Any one piece of a `flatMap` over `List.range` sits contiguously inside
the whole. -/
lemma flatMap_range_decomp {α : Type} (f : Nat → List α) :
    ∀ {n l : Nat}, l < n →
      ∃ s t, (List.range n).flatMap f = s ++ f l ++ t := by
  intro n
  induction n with
  | zero => intro l h; omega
  | succ n ih =>
      intro l h
      rw [List.range_succ, List.flatMap_append]
      rcases Nat.lt_succ_iff_lt_or_eq.mp h with h' | rfl
      · obtain ⟨s, t, hst⟩ := ih h'
        exact ⟨s, t ++ [n].flatMap f, by rw [hst]; simp⟩
      · exact ⟨(List.range l).flatMap f, [], by simp⟩

lemma seq_block_within (p : BranchParams) {l : Nat} (h : l < p.nb_filter.length) :
    seq_block p l <:+: seq_layers p := by
  obtain ⟨s, t, hst⟩ := flatMap_range_decomp (seq_block p) h
  have h1 : seq_block p l <:+: (List.range p.nb_filter.length).flatMap (seq_block p) :=
    ⟨s, t, hst.symm⟩
  refine h1.trans ⟨(if p.drop_in ≠ 0 then [("xd", Layer.dropout p.drop_in)] else []),
    [("f1", Layer.flatten)]
    ++ (if p.drop_out ≠ 0 then [("f1d", Layer.dropout p.drop_out)] else [])
    ++ (if p.nb_hidden ≠ 0 then
          [("h1", Layer.dense p.nb_hidden "linear")]
          ++ (if p.batch_norm then [("h1b", Layer.batchNorm)] else [])
          ++ [("h1a", Layer.activation p.activation)]
          ++ (if p.drop_out ≠ 0 then [("h1d", Layer.dropout p.drop_out)] else [])
        else []), ?_⟩
  simp [seq_layers]

lemma cpg_block_within (p : BranchParams) {l : Nat} (h : l < p.nb_filter.length) :
    cpg_block p l <:+: cpg_layers p := by
  obtain ⟨s, t, hst⟩ := flatMap_range_decomp (cpg_block p) h
  have h1 : cpg_block p l <:+: (List.range p.nb_filter.length).flatMap (cpg_block p) :=
    ⟨s, t, hst.symm⟩
  refine h1.trans ⟨(if p.drop_in ≠ 0 then [("xd", Layer.dropout p.drop_in)] else []),
    [("f1", Layer.flatten)]
    ++ (if p.drop_out ≠ 0 then [("f1d", Layer.dropout p.drop_out)] else [])
    ++ (if p.nb_hidden ≠ 0 then
          [("h1", Layer.dense p.nb_hidden "linear")]
          ++ (if p.batch_norm then [("h1b", Layer.batchNorm)] else [])
          ++ [("h1a", Layer.activation p.activation)]
          ++ (if p.drop_out ≠ 0 then [("h1d", Layer.dropout p.drop_out)] else [])
        else []), ?_⟩
  simp [cpg_layers]

lemma f1_mem_seq (p : BranchParams) : ("f1", Layer.flatten) ∈ seq_layers p := by
  simp [seq_layers]

lemma f1_mem_cpg (p : BranchParams) : ("f1", Layer.flatten) ∈ cpg_layers p := by
  simp [cpg_layers]

lemma h1_iff_seq (p : BranchParams) :
    (("h1", Layer.dense p.nb_hidden "linear") ∈ seq_layers p
      ∧ ("h1a", Layer.activation p.activation) ∈ seq_layers p)
      ↔ p.nb_hidden ≠ 0 := by
  constructor
  · rintro ⟨hmem, -⟩ h0
    simp [seq_layers, seq_block, h0] at hmem
  · intro hne
    constructor <;> simp [seq_layers, hne]

lemma h1_iff_cpg (p : BranchParams) :
    (("h1", Layer.dense p.nb_hidden "linear") ∈ cpg_layers p
      ∧ ("h1a", Layer.activation p.activation) ∈ cpg_layers p)
      ↔ p.nb_hidden ≠ 0 := by
  constructor
  · rintro ⟨hmem, -⟩ h0
    simp [cpg_layers, cpg_block, h0] at hmem
  · intro hne
    constructor <;> simp [cpg_layers, hne]

/-- C1.  `seq_layers` contains, for every index `l` below
`len(params.nb_filter)`, the conv layer `c(l+1)` immediately followed by the
pool layer `p(l+1)` (the `seq_block`), contains a Flatten layer `f1` after
the blocks, and contains the dense hidden head `h1` (with its activation
`h1a`) iff `params.nb_hidden` is truthy; `cpg_layers` is analogous with 2-D
convolution (`nb_row=1`, `nb_col=filter_len[l]`) and 2-D max-pooling. -/
theorem claim_C1 (sp cp : BranchParams) {l k : Nat}
    (hl : l < sp.nb_filter.length) (hk : k < cp.nb_filter.length) :
    (seq_block sp l <:+: seq_layers sp)
    ∧ ("f1", Layer.flatten) ∈ seq_layers sp
    ∧ ((("h1", Layer.dense sp.nb_hidden "linear") ∈ seq_layers sp
        ∧ ("h1a", Layer.activation sp.activation) ∈ seq_layers sp)
        ↔ sp.nb_hidden ≠ 0)
    ∧ (cpg_block cp k <:+: cpg_layers cp)
    ∧ ("f1", Layer.flatten) ∈ cpg_layers cp
    ∧ ((("h1", Layer.dense cp.nb_hidden "linear") ∈ cpg_layers cp
        ∧ ("h1a", Layer.activation cp.activation) ∈ cpg_layers cp)
        ↔ cp.nb_hidden ≠ 0) :=
  ⟨seq_block_within sp hl, f1_mem_seq sp, h1_iff_seq sp,
   cpg_block_within cp hk, f1_mem_cpg cp, h1_iff_cpg cp⟩

/-- A branch-parameter value used to instantiate the claims concretely. -/
def exBranch : BranchParams :=
  { drop_in := 0, drop_out := 1/4, nb_filter := [4, 8], filter_len := [3, 5],
    pool_len := [2, 2], nb_hidden := 16, batch_norm := false,
    activation := "relu", l1 := 0, l2 := 1/100 }

/-- C1 witness: the theorem applied at a concrete branch parameter set and
block index. -/
theorem claim_C1_witness :
    (seq_block exBranch 1 <:+: seq_layers exBranch)
    ∧ ("f1", Layer.flatten) ∈ seq_layers exBranch
    ∧ ((("h1", Layer.dense exBranch.nb_hidden "linear") ∈ seq_layers exBranch
        ∧ ("h1a", Layer.activation exBranch.activation) ∈ seq_layers exBranch)
        ↔ exBranch.nb_hidden ≠ 0)
    ∧ (cpg_block exBranch 0 <:+: cpg_layers exBranch)
    ∧ ("f1", Layer.flatten) ∈ cpg_layers exBranch
    ∧ ((("h1", Layer.dense exBranch.nb_hidden "linear") ∈ cpg_layers exBranch
        ∧ ("h1a", Layer.activation exBranch.activation) ∈ cpg_layers exBranch)
        ↔ exBranch.nb_hidden ≠ 0) :=
  claim_C1 exBranch exBranch (l := 1) (k := 0) (by decide) (by decide)

lemma target_last (p : HeadParams) :
    (target_layers p).getLast? = some ("o", Layer.dense 1 "sigmoid") := by
  simp [target_layers]

lemma h1_iff_target (p : HeadParams) :
    ("h1", Layer.dense p.nb_hidden "linear") ∈ target_layers p ↔ p.nb_hidden ≠ 0 := by
  constructor
  · intro hmem h0
    simp [target_layers, h0] at hmem
  · intro hne
    simp [target_layers, hne]

/-- C2.  Every target head contains the hidden dense layer `h1` iff
`params.target.nb_hidden` is truthy and always ends with a
`Dense(1, activation='sigmoid')` layer; `build` registers exactly one
output per target, named `<target>_y`, so the number of model outputs
equals the number of targets. -/
theorem claim_C2 (tp : HeadParams) (params : NetParams) (targets : List String)
    (sl cl nbu : Option Nat) (m : GraphModel)
    (h : build params targets sl cl nbu = some m) :
    (("h1", Layer.dense tp.nb_hidden "linear") ∈ target_layers tp ↔ tp.nb_hidden ≠ 0)
    ∧ (target_layers tp).getLast? = some ("o", Layer.dense 1 "sigmoid")
    ∧ m.outputs.map Prod.fst = targets.map (fun t => t ++ "_y")
    ∧ m.outputs.length = targets.length := by
  obtain ⟨-, houts⟩ := build_some_eq params targets sl cl nbu m h
  refine ⟨h1_iff_target tp, target_last tp, ?_, ?_⟩
  · rw [houts, List.map_map]
    rfl
  · simp [houts]

/-- A head-parameter value used to instantiate the claims concretely. -/
def exHead : HeadParams := { nb_hidden := 8, batch_norm := false, activation := "relu", drop_out := 0 }

/-- A full parameter set used to instantiate the claims concretely. -/
def exNet : NetParams :=
  { seq := some exBranch, cpg := none
    joint := some { nb_hidden := 10, batch_norm := false, activation := "relu", drop_out := 0 }
    target := exHead }

/-- C2 witness: the theorem applied to a concretely built model. -/
theorem claim_C2_witness :
    ((build exNet ["t1", "t2"] (some 10) none none).getD ⟨[], [], []⟩).outputs.map Prod.fst
      = ["t1_y", "t2_y"] := by
  have h := claim_C2 exHead exNet ["t1", "t2"] (some 10) none none
      ((build exNet ["t1", "t2"] (some 10) none none).getD ⟨[], [], []⟩) (by rfl)
  exact h.2.2.1.trans (by rfl)

lemma zip_self_map {α β : Type} (g : α → β) :
    ∀ l : List α, l.zip (l.map g) = l.map (fun a => (a, g a)) := by
  intro l
  induction l with
  | nil => simp
  | cons a as ih => simp [ih]

/-- With the default `weight_classes=False`, the sample weights are pointwise:
0 on `MASK`, 1 elsewhere. -/
lemma get_sample_weights_false (y : List Rat) :
    get_sample_weights y false = y.map (fun a => if a = MASK then 0 else 1) := by
  simp only [get_sample_weights, if_neg Bool.false_ne_true, List.foldl_cons,
    List.foldl_nil, apply_class_weight, zip_self_map, List.map_map]
  rfl

lemma lookup_map_self {β : Type} (g : String → β) :
    ∀ (oo : List String) (o : String),
      ((oo.map (fun k => (k, g k))).lookup o) = if o ∈ oo then some (g o) else none := by
  intro oo
  induction oo with
  | nil => intro o; simp
  | cons k ks ih =>
      intro o
      by_cases h : o = k
      · subst h; simp [List.lookup]
      · simp [List.lookup, ih, h, beq_false_of_ne h]

/-- C3.  With the default `weight_classes=False`, `get_sample_weights(y)`
has the shape of `y`, is 0 exactly on entries equal to `io.MASK` and 1 on
all other entries; consequently `check_weights` passes on the weights
`read_data` builds. -/
theorem claim_C3 (y : List Rat) (data : List (String × List Rat))
    (oo : List String) (i : Nat) (hi : i < y.length) :
    (get_sample_weights y false).length = y.length
    ∧ (get_sample_weights y false).getD i 0 = (if y.getD i 0 = MASK then 0 else 1)
    ∧ check_weights oo data (read_data_weights data oo) = true := by
  refine ⟨by simp [get_sample_weights_false], ?_, ?_⟩
  · rw [get_sample_weights_false]
    rw [List.getD_eq_getElem?_getD, List.getD_eq_getElem?_getD,
      List.getElem?_map, List.getElem?_eq_getElem hi]
    rfl
  · unfold check_weights
    rw [List.all_eq_true]
    intro o ho
    have hw : (read_data_weights data oo).lookup o
        = some (get_sample_weights ((data.lookup o).getD []) false) := by
      rw [read_data_weights, lookup_map_self]
      simp [ho]
    rw [hw, Option.getD_some, get_sample_weights_false, zip_self_map,
      List.all_eq_true]
    intro p hp
    obtain ⟨a, -, rfl⟩ := List.mem_map.mp hp
    by_cases hA : a = MASK <;> simp [hA]

/-- C3 witness: the theorem applied at a concrete label list and data dict. -/
theorem claim_C3_witness :
    (get_sample_weights [0, -1, 1] false).length = ([0, -1, 1] : List Rat).length
    ∧ (get_sample_weights [0, -1, 1] false).getD 1 0
        = (if ([0, -1, 1] : List Rat).getD 1 0 = MASK then 0 else 1)
    ∧ check_weights ["a_y"] [("a_y", [0, -1, 1])]
        (read_data_weights [("a_y", [0, -1, 1])] ["a_y"]) = true :=
  claim_C3 [0, -1, 1] [("a_y", [0, -1, 1])] ["a_y"] 1 (by decide)

lemma setWeights_cons {α : Type} (a : String) (b : α) (rest : List (String × α))
    (k : String) (w : α) :
    setWeights ((a, b) :: rest) k w
      = (if a = k then (a, w) else (a, b)) :: setWeights rest k w := rfl

lemma setWeights_map_fst {α : Type} (d : List (String × α)) (k : String) (w : α) :
    (setWeights d k w).map Prod.fst = d.map Prod.fst := by
  unfold setWeights
  rw [List.map_map]
  apply List.map_congr_left
  intro q _
  by_cases h : q.1 = k <;> simp [h]

lemma lookup_setWeights_ne {α : Type} (d : List (String × α)) (k : String) (w : α)
    {k' : String} (h : k' ≠ k) :
    (setWeights d k w).lookup k' = d.lookup k' := by
  induction d with
  | nil => rfl
  | cons p rest ih =>
      obtain ⟨a, b⟩ := p
      rw [setWeights_cons]
      by_cases hp : a = k
      · rw [if_pos hp]
        have hne : ¬ k' = a := fun he => h (he.trans hp)
        simp [List.lookup, beq_false_of_ne hne, ih]
      · rw [if_neg hp]
        by_cases hk : k' = a
        · simp [List.lookup, hk]
        · simp [List.lookup, beq_false_of_ne hk, ih]

lemma lookup_setWeights_self {α : Type} (d : List (String × α)) (k : String) (w : α)
    (h : (d.lookup k).isSome) :
    (setWeights d k w).lookup k = some w := by
  induction d with
  | nil => simp [List.lookup] at h
  | cons p rest ih =>
      obtain ⟨a, b⟩ := p
      rw [setWeights_cons]
      by_cases hp : a = k
      · rw [if_pos hp]
        subst hp
        simp [List.lookup]
      · rw [if_neg hp]
        have hne : ¬ k = a := fun he => hp he.symm
        simp only [List.lookup, beq_false_of_ne hne] at h ⊢
        exact ih h

lemma lookup_isSome_setWeights {α : Type} (d : List (String × α)) (k : String)
    (w : α) (k' : String) :
    ((setWeights d k w).lookup k').isSome = (d.lookup k').isSome := by
  induction d with
  | nil => rfl
  | cons p rest ih =>
      obtain ⟨a, b⟩ := p
      rw [setWeights_cons]
      by_cases hp : a = k
      · rw [if_pos hp]
        by_cases hk : k' = a
        · simp [List.lookup, hk]
        · simp [List.lookup, beq_false_of_ne hk, ih]
      · rw [if_neg hp]
        by_cases hk : k' = a
        · simp [List.lookup, hk]
        · simp [List.lookup, beq_false_of_ne hk, ih]

/-- Full behaviour of the `copy_weights` loop: it returns exactly the
(in-order) source node names matching some regex and present in `dst`, the
destination keeps its key set, entries whose name was not copied keep their
weights, and (for dict-like sources, i.e. unique names) every copied name
holds the source weights afterwards. -/
lemma copy_go_spec {α : Type} (regexs : List (String → Bool)) :
    ∀ (src d : List (String × α)),
      (copy_go regexs src d).2
          = (src.filter (fun kv => !(filter_regex kv.1 regexs).isEmpty
              && (d.lookup kv.1).isSome)).map Prod.fst
      ∧ (copy_go regexs src d).1.map Prod.fst = d.map Prod.fst
      ∧ (∀ k, k ∉ (copy_go regexs src d).2 →
          (copy_go regexs src d).1.lookup k = d.lookup k)
      ∧ ((src.map Prod.fst).Nodup → ∀ kv ∈ src, kv.1 ∈ (copy_go regexs src d).2 →
          (copy_go regexs src d).1.lookup kv.1 = some kv.2) := by
  intro src
  induction src with
  | nil => intro d; simp [copy_go]
  | cons kv rest ih =>
      intro d
      have hfil : ∀ w, rest.filter (fun kv' => !(filter_regex kv'.1 regexs).isEmpty
            && ((setWeights d kv.1 w).lookup kv'.1).isSome)
          = rest.filter (fun kv' => !(filter_regex kv'.1 regexs).isEmpty
            && (d.lookup kv'.1).isSome) := by
        intro w
        apply List.filter_congr
        intro x _
        rw [lookup_isSome_setWeights]
      by_cases hc : (!(filter_regex kv.1 regexs).isEmpty && (d.lookup kv.1).isSome) = true
      · obtain ⟨h1, h2, h3, h4⟩ := ih (setWeights d kv.1 kv.2)
        rw [hfil] at h1
        have hgo : copy_go regexs (kv :: rest) d
            = ((copy_go regexs rest (setWeights d kv.1 kv.2)).1,
               kv.1 :: (copy_go regexs rest (setWeights d kv.1 kv.2)).2) := by
          simp [copy_go, hc]
        rw [hgo]
        refine ⟨by simp [List.filter_cons, hc, h1], ?_, ?_, ?_⟩
        · rw [h2, setWeights_map_fst]
        · intro k hk
          simp only [List.mem_cons, not_or] at hk
          rw [h3 k hk.2, lookup_setWeights_ne _ _ _ hk.1]
        · intro hnd kv' hmem hcop
          have hnd' : (rest.map Prod.fst).Nodup := (List.nodup_cons.mp hnd).2
          have hnmem : kv.1 ∉ rest.map Prod.fst := (List.nodup_cons.mp hnd).1
          rcases List.mem_cons.mp hmem with rfl | hmem'
          · have hnot : kv'.1 ∉ (copy_go regexs rest (setWeights d kv'.1 kv'.2)).2 := by
              intro hin
              rw [h1] at hin
              obtain ⟨x, hx, hxe⟩ := List.mem_map.mp hin
              exact hnmem (List.mem_map.mpr ⟨x, (List.mem_filter.mp hx).1, hxe⟩)
            rw [h3 kv'.1 hnot]
            exact lookup_setWeights_self d kv'.1 kv'.2
              (Bool.and_elim_right hc)
          · have hne : kv'.1 ≠ kv.1 := by
              intro he
              exact hnmem (he ▸ List.mem_map.mpr ⟨kv', hmem', rfl⟩)
            rcases List.mem_cons.mp hcop with he | hcop'
            · exact absurd he hne
            · exact h4 hnd' kv' hmem' hcop'
      · obtain ⟨h1, h2, h3, h4⟩ := ih d
        have hgo : copy_go regexs (kv :: rest) d = copy_go regexs rest d := by
          simp [copy_go, hc]
        rw [hgo]
        refine ⟨by simp [List.filter_cons, hc, h1], h2, h3, ?_⟩
        intro hnd kv' hmem hcop
        have hnd' : (rest.map Prod.fst).Nodup := (List.nodup_cons.mp hnd).2
        have hnmem : kv.1 ∉ rest.map Prod.fst := (List.nodup_cons.mp hnd).1
        rcases List.mem_cons.mp hmem with rfl | hmem'
        · exfalso
          rw [h1] at hcop
          obtain ⟨x, hx, hxe⟩ := List.mem_map.mp hcop
          exact hnmem (List.mem_map.mpr ⟨x, (List.mem_filter.mp hx).1, hxe⟩)
        · exact h4 hnd' kv' hmem' hcop

/-- C4.  `copy_weights` returns exactly the source node names that match at
least one regex and are present in `dst.nodes` (in source order); those
nodes receive the source weights (for well-formed, duplicate-free source
dicts), every destination node whose name is not in the returned list keeps
its weights, and the destination key set is unchanged. -/
theorem claim_C4 {α : Type} (srcNodes dstNodes : List (String × α))
    (regexs : List (String → Bool)) (hs : (srcNodes.map Prod.fst).Nodup) :
    (copy_weights srcNodes dstNodes regexs).2
        = (srcNodes.filter (fun kv => !(filter_regex kv.1 regexs).isEmpty
            && (dstNodes.lookup kv.1).isSome)).map Prod.fst
    ∧ (∀ kv ∈ srcNodes, kv.1 ∈ (copy_weights srcNodes dstNodes regexs).2 →
        (copy_weights srcNodes dstNodes regexs).1.lookup kv.1 = some kv.2)
    ∧ (∀ k, k ∉ (copy_weights srcNodes dstNodes regexs).2 →
        (copy_weights srcNodes dstNodes regexs).1.lookup k = dstNodes.lookup k)
    ∧ (copy_weights srcNodes dstNodes regexs).1.map Prod.fst
        = dstNodes.map Prod.fst := by
  obtain ⟨h1, h2, h3, h4⟩ := copy_go_spec regexs srcNodes dstNodes
  exact ⟨h1, h4 hs, h3, h2⟩

/-- C4 witness: the theorem applied to concrete source/destination nodes and
one regex (embedded as its match predicate) selecting the `c_x` node. -/
theorem claim_C4_witness :
    (copy_weights [("c_x", 1), ("s_x", 2)] [("c_x", 0), ("j_h1", 7)]
        [fun s => s == "c_x"]).2 = ["c_x"] := by
  have h := claim_C4 [("c_x", (1 : Nat)), ("s_x", 2)] [("c_x", 0), ("j_h1", 7)]
      [fun s => s == "c_x"] (by decide)
  exact h.1.trans (by rfl)

/-- The batch-size loop is: among candidates not exceeding the sample count
(in list order), the first whose training step succeeds. -/
lemma adjust_go_find (ok : Nat → Bool) (n : Nat) :
    ∀ cs : List (Nat × Rat),
      adjust_go ok n cs
        = (cs.filter (fun c => decide (c.1 ≤ n))).find? (fun c => ok c.1) := by
  intro cs
  induction cs with
  | nil => rfl
  | cons c rest ih =>
      by_cases h : c.1 > n
      · have hgt : ¬ c.1 ≤ n := by omega
        simp [adjust_go, h, List.filter_cons, hgt, ih]
      · have hle : c.1 ≤ n := by omega
        by_cases hok : ok c.1 <;>
          simp [adjust_go, h, hle, List.filter_cons, List.find?_cons, hok, ih]

/-- C5.  `adjust_batch_size` tries the candidates `(512, 256, 128, 64, 32,
16)` in strictly descending batch-size order, skips candidates whose batch
size exceeds the sample count, returns the first surviving `(batch_size,
lr)` pair whose `train_on_batch` does not raise, returns `(None, None)`
exactly when every surviving candidate fails, and in that case `main` logs
an error and returns exit code 1. -/
theorem claim_C5 (ok : Nat → Bool) (n : Nat) :
    configs.map Prod.fst = [512, 256, 128, 64, 32, 16]
    ∧ (configs.map Prod.fst).Pairwise (· > ·)
    ∧ adjust_batch_size ok n
        = (configs.filter (fun c => decide (c.1 ≤ n))).find? (fun c => ok c.1)
    ∧ (adjust_batch_size ok n = none ↔ ∀ c ∈ configs, c.1 ≤ n → ok c.1 = false)
    ∧ (adjust_batch_size ok n = none → main_adjust_exit ok n = some 1) := by
  have hfind : adjust_batch_size ok n
      = (configs.filter (fun c => decide (c.1 ≤ n))).find? (fun c => ok c.1) :=
    adjust_go_find ok n configs
  refine ⟨by decide, by decide, hfind, ?_, ?_⟩
  · constructor
    · intro h0 c hc hle
      have hm := List.find?_eq_none.mp (hfind ▸ h0) c
        (List.mem_filter.mpr ⟨hc, by simpa using hle⟩)
      simpa using hm
    · intro hall
      rw [hfind]
      apply List.find?_eq_none.mpr
      intro c hc
      obtain ⟨hc1, hc2⟩ := List.mem_filter.mp hc
      simpa using hall c hc1 (by simpa using hc2)
  · intro h0
    simp [main_adjust_exit, h0]

/-- C5 witness: with 300 samples and an oracle succeeding only for batch
sizes up to 100, the loop settles on `(64, 0.001)`; with an always-failing
oracle `main` exits with code 1. -/
theorem claim_C5_witness :
    adjust_batch_size (fun b => decide (b ≤ 100)) 300 = some (64, 0.001)
    ∧ main_adjust_exit (fun _ => false) 300 = some 1 := by
  have h := claim_C5 (fun b => decide (b ≤ 100)) 300
  have h2 := claim_C5 (fun _ => false) 300
  exact ⟨h.2.2.1.trans (by rfl),
    h2.2.2.2.2 (h2.2.2.2.1.mpr (by decide))⟩

/-- C6 (amended).  `model_from_list` loads the JSON-architecture-plus-weights
pair iff the list has length exactly 2; for every other *nonzero* length it
loads the pickle blob `fnames[0]` (on the empty list, `fnames[0]` raises
`IndexError` instead of loading anything); `model_to_json` writes the
architecture as JSON and, when a weights file is given, the weights to that
separate file; `model_to_pickle` writes one serialized blob. -/
theorem claim_C6 (fs : List String) (m : ModelData) (j w p : String) :
    ((∃ a b, model_from_list fs = some (.json a b)) ↔ fs.length = 2)
    ∧ (fs.length = 2 →
        model_from_list fs = some (.json (fs.getD 0 "") (fs.getD 1 "")))
    ∧ (fs ≠ [] → fs.length ≠ 2 →
        model_from_list fs = some (.pickle (fs.getD 0 "")))
    ∧ model_to_json m j (some w) = [(j, .jsonArch m.arch), (w, .weightsBlob m.weights)]
    ∧ model_to_json m j none = [(j, .jsonArch m.arch)]
    ∧ model_to_pickle m p = [(p, .pickleBlob m)] := by
  refine ⟨⟨?_, ?_⟩, ?_, ?_, rfl, rfl, rfl⟩
  · rintro ⟨a, b, hab⟩
    by_contra hne
    rw [model_from_list, if_neg hne] at hab
    cases h0 : fs.get? 0 <;> rw [h0] at hab <;> simp at hab
  · intro h2
    rw [model_from_list, if_pos h2]
    exact ⟨_, _, rfl⟩
  · intro h2
    rw [model_from_list, if_pos h2]
  · intro hne h2
    rw [model_from_list, if_neg h2]
    cases fs with
    | nil => exact absurd rfl hne
    | cons a rest => rfl

/-- C6 counterexample: on the empty filename list (a length other than 2)
the code raises `IndexError` rather than loading a pickle from `fnames[0]`,
so the claim's "for every other length" fails at length 0. -/
theorem claim_C6_counterexample : model_from_list [] = none := rfl

/-- C6 witness: the amended theorem applied to a two-element and a
one-element filename list. -/
theorem claim_C6_witness :
    model_from_list ["m.json", "w.h5"] = some (.json "m.json" "w.h5")
    ∧ model_from_list ["m.pkl"] = some (.pickle "m.pkl") := by
  have h := claim_C6 ["m.json", "w.h5"] ⟨"a", "w"⟩ "f.json" "f.h5" "f.pkl"
  have h2 := claim_C6 ["m.pkl"] ⟨"a", "w"⟩ "f.json" "f.h5" "f.pkl"
  exact ⟨(h.2.1 (by decide)).trans (by rfl),
    (h2.2.2.1 (by decide) (by decide)).trans (by rfl)⟩

/-- The grouping fold of `eval_io`, closed form: the keys whose loss
contains the pattern, in order, and the rest, in order. -/
lemma eval_split_eq (l : List (String × String)) :
    eval_split l
      = ((l.filter (fun kv => hasSubstr kv.2 "binary_crossentropy")).map Prod.fst,
         (l.filter (fun kv => !hasSubstr kv.2 "binary_crossentropy")).map Prod.fst) := by
  have hgen : ∀ (l : List (String × String)) (acc : List String × List String),
      l.foldl (fun acc kv =>
        if hasSubstr kv.2 "binary_crossentropy" then (acc.1 ++ [kv.1], acc.2)
        else (acc.1, acc.2 ++ [kv.1])) acc
      = (acc.1 ++ (l.filter (fun kv => hasSubstr kv.2 "binary_crossentropy")).map Prod.fst,
         acc.2 ++ (l.filter (fun kv => !hasSubstr kv.2 "binary_crossentropy")).map Prod.fst) := by
    intro l
    induction l with
    | nil => intro acc; simp
    | cons kv rest ih =>
        intro acc
        by_cases hb : hasSubstr kv.2 "binary_crossentropy" <;>
          simp [hb, List.filter_cons, ih]
  simpa using hgen l ([], [])

/-- C7.  `eval_io` puts every output whose configured loss contains
`'binary_crossentropy'` in the classification group and every other output
in the regression group; the two groups partition the outputs; a nonempty
classification group is written to `<out_base>_cla.csv` and a nonempty
regression group to `<out_base>_reg.csv`. -/
theorem claim_C7 (loss : List (String × String)) (ob : String)
    (hnd : (loss.map Prod.fst).Nodup) :
    (eval_io loss ob).cla
        = (loss.filter (fun kv => hasSubstr kv.2 "binary_crossentropy")).map Prod.fst
    ∧ (eval_io loss ob).reg
        = (loss.filter (fun kv => !hasSubstr kv.2 "binary_crossentropy")).map Prod.fst
    ∧ (∀ k ∈ loss.map Prod.fst,
        (k ∈ (eval_io loss ob).cla ↔ k ∉ (eval_io loss ob).reg))
    ∧ ((eval_io loss ob).cla ≠ [] → (ob ++ "_cla.csv") ∈ (eval_io loss ob).files)
    ∧ ((eval_io loss ob).reg ≠ [] → (ob ++ "_reg.csv") ∈ (eval_io loss ob).files) := by
  have hc : (eval_io loss ob).cla
      = (loss.filter (fun kv => hasSubstr kv.2 "binary_crossentropy")).map Prod.fst := by
    simp [eval_io, eval_split_eq]
  have hr : (eval_io loss ob).reg
      = (loss.filter (fun kv => !hasSubstr kv.2 "binary_crossentropy")).map Prod.fst := by
    simp [eval_io, eval_split_eq]
  refine ⟨hc, hr, ?_, ?_, ?_⟩
  · intro k hk
    constructor
    · intro hcla hreg
      rw [hc] at hcla
      rw [hr] at hreg
      obtain ⟨kv, hkv, hkve⟩ := List.mem_map.mp hcla
      obtain ⟨kv', hkv', hkve'⟩ := List.mem_map.mp hreg
      obtain ⟨hkvm, hkvp⟩ := List.mem_filter.mp hkv
      obtain ⟨hkvm', hkvp'⟩ := List.mem_filter.mp hkv'
      have heq : kv = kv' :=
        List.inj_on_of_nodup_map hnd hkvm hkvm' (hkve.trans hkve'.symm)
      rw [heq] at hkvp
      rw [hkvp] at hkvp'
      simp at hkvp'
    · intro hreg
      obtain ⟨kv, hkv, hkve⟩ := List.mem_map.mp hk
      by_cases hp : hasSubstr kv.2 "binary_crossentropy"
      · rw [hc]
        exact List.mem_map.mpr ⟨kv, List.mem_filter.mpr ⟨hkv, by simpa using hp⟩, hkve⟩
      · exfalso
        apply hreg
        rw [hr]
        exact List.mem_map.mpr ⟨kv, List.mem_filter.mpr ⟨hkv, by simpa using hp⟩, hkve⟩
  · intro hne
    simp only [eval_io, eval_split_eq] at hne ⊢
    simp only [ne_eq, List.length_eq_zero] at hne ⊢
    simp [hne]
  · intro hne
    simp only [eval_io, eval_split_eq] at hne ⊢
    simp only [ne_eq, List.length_eq_zero] at hne ⊢
    simp [hne]

/-- C7 witness: the theorem applied to a concrete two-output loss dict with
one classification and one regression output. -/
theorem claim_C7_witness :
    (eval_io [("a_y", "binary_crossentropy"), ("s_y", "mse")] "out").cla = ["a_y"]
    ∧ ("out" ++ "_cla.csv")
        ∈ (eval_io [("a_y", "binary_crossentropy"), ("s_y", "mse")] "out").files := by
  have h := claim_C7 [("a_y", "binary_crossentropy"), ("s_y", "mse")] "out" (by decide)
  have hcla : (eval_io [("a_y", "binary_crossentropy"), ("s_y", "mse")] "out").cla
      = ["a_y"] := by
    rw [h.1]
    decide
  exact ⟨hcla, h.2.2.2.1 (by rw [hcla]; decide)⟩

lemma chainLast_eq (pfx : String) :
    ∀ (ls : List (String × Layer)) (prev : List String) (x : String × Layer),
      ls.getLast? = some x → chainLast pfx prev ls = [pfx ++ "_" ++ x.1] := by
  intro ls
  induction ls with
  | nil => intro prev x h; simp at h
  | cons hd rest ih =>
      intro prev x h
      cases rest with
      | nil =>
          obtain ⟨n, ly⟩ := hd
          simp at h
          subst h
          rfl
      | cons b t =>
          obtain ⟨n, ly⟩ := hd
          rw [List.getLast?_cons_cons] at h
          exact ih [pfx ++ "_" ++ n] x h

lemma chainLast_getLastD (pfx : String) (prev : List String)
    (ls : List (String × Layer)) (hne : ls ≠ []) (d : String × Layer) :
    chainLast pfx prev ls = [pfx ++ "_" ++ (ls.getLastD d).1] := by
  obtain ⟨x, hx⟩ := Option.isSome_iff_exists.mp (List.getLast?_isSome.mpr hne)
  rw [chainLast_eq pfx ls prev x hx, List.getLastD_eq_getLast?, hx]
  rfl

lemma seq_layers_ne_nil (p : BranchParams) : seq_layers p ≠ [] :=
  List.ne_nil_of_mem (f1_mem_seq p)

lemma cpg_layers_ne_nil (p : BranchParams) : cpg_layers p ≠ [] :=
  List.ne_nil_of_mem (f1_mem_cpg p)

lemma target_layers_ne_nil (p : HeadParams) : target_layers p ≠ [] := by
  intro h0
  have h := target_last p
  rw [h0] at h
  simp at h

lemma chain_head_mem (pfx : String) (prev : List String)
    (ls : List (String × Layer)) (hne : ls ≠ []) (d : String × Layer) :
    (pfx ++ "_" ++ (ls.headD d).1, (prev, (ls.headD d).2)) ∈ chain pfx prev ls := by
  cases ls with
  | nil => exact absurd rfl hne
  | cons x rest =>
      obtain ⟨n, ly⟩ := x
      simp [chain]

/-- C8.  `build` adds the joint branch exactly when `params.joint` is truthy
and `params.joint.nb_hidden > 0` (the model nodes decompose into the branch
chains, the joint chain — empty otherwise — and the target chains); when
added, the joint dense layer `j_h1` takes as inputs all available branch
output nodes (the final sequence- and/or CpG-branch nodes) and the target
heads hang off the joint chain; when not added, each target head's first
layer is wired directly to the branch output nodes. -/
theorem claim_C8 (params : NetParams) (targets : List String)
    (sl cl nbu : Option Nat) (m : GraphModel)
    (h : build params targets sl cl nbu = some m) :
    m.nodes = seqChain params.seq ++ cpgChain params.cpg
        ++ jointChain params (branchNodesOf params)
        ++ targetsChain params.target (headNodes params (branchNodesOf params)) targets
    ∧ branchNodesOf params
        = (match params.seq with
           | some sp => ["s_" ++ ((seq_layers sp).getLastD ("", Layer.flatten)).1]
           | none => [])
          ++ (match params.cpg with
              | some cp => ["c_" ++ ((cpg_layers cp).getLastD ("", Layer.flatten)).1]
              | none => [])
    ∧ (∀ jp, params.joint = some jp → 0 < jp.nb_hidden →
        (jointChain params (branchNodesOf params)).head?
          = some ("j_h1", (branchNodesOf params, Layer.dense jp.nb_hidden "linear"))
        ∧ headNodes params (branchNodesOf params)
          = chainLast "j" (branchNodesOf params) (joint_layers jp))
    ∧ ((∀ jp, params.joint = some jp → jp.nb_hidden = 0) →
        jointChain params (branchNodesOf params) = []
        ∧ headNodes params (branchNodesOf params) = branchNodesOf params)
    ∧ (∀ t ∈ targets,
        (t ++ "_" ++ ((target_layers params.target).headD ("", Layer.flatten)).1,
         (headNodes params (branchNodesOf params),
          ((target_layers params.target).headD ("", Layer.flatten)).2)) ∈ m.nodes) := by
  obtain ⟨hnodes, -⟩ := build_some_eq params targets sl cl nbu m h
  refine ⟨hnodes, ?_, ?_, ?_, ?_⟩
  · rw [branchNodesOf]
    rcases params.seq with _ | sp <;> rcases params.cpg with _ | cp
    · rfl
    · simp only [chainLast_getLastD "c" ["c_x"] (cpg_layers cp) (cpg_layers_ne_nil cp)
        ("", Layer.flatten)]
      rfl
    · simp only [chainLast_getLastD "s" ["s_x"] (seq_layers sp) (seq_layers_ne_nil sp)
        ("", Layer.flatten)]
      rfl
    · simp only [chainLast_getLastD "s" ["s_x"] (seq_layers sp) (seq_layers_ne_nil sp)
        ("", Layer.flatten),
        chainLast_getLastD "c" ["c_x"] (cpg_layers cp) (cpg_layers_ne_nil cp)
        ("", Layer.flatten)]
      rfl
  · intro jp hj hh
    constructor
    · simp [jointChain, hj, hh, joint_layers, chain]
    · simp [headNodes, hj, hh]
  · intro hz
    rcases hj : params.joint with _ | jp
    · simp [jointChain, headNodes, hj]
    · have h0 : jp.nb_hidden = 0 := hz jp hj
      simp [jointChain, headNodes, hj, h0]
  · intro t ht
    rw [hnodes]
    refine List.mem_append.mpr (Or.inr (List.mem_flatMap.mpr ⟨t, ht, ?_⟩))
    exact chain_head_mem t _ (target_layers params.target)
      (target_layers_ne_nil params.target) ("", Layer.flatten)

/-- C8 witness: the theorem applied to a concretely built model with both
branches and an enabled joint branch. -/
theorem claim_C8_witness :
    (jointChain exNet (branchNodesOf exNet)).head?
      = some ("j_h1", (branchNodesOf exNet, Layer.dense 10 "linear")) := by
  have h := claim_C8 exNet ["t1"] (some 10) none none
      ((build exNet ["t1"] (some 10) none none).getD ⟨[], [], []⟩) (by rfl)
  exact (h.2.2.1 { nb_hidden := 10, batch_norm := false, activation := "relu", drop_out := 0 }
    rfl (by decide)).1

lemma lookup_dinsert (d : List (String × String)) (k v k' : String) :
    (dinsert d k v).lookup k' = if k' = k then some v else d.lookup k' := by
  induction d with
  | nil =>
      by_cases h : k' = k
      · simp [dinsert, List.lookup, h]
      · simp [dinsert, List.lookup, beq_false_of_ne h, h]
  | cons p rest ih =>
      obtain ⟨a, b⟩ := p
      by_cases hp : a = k
      · rw [show dinsert ((a, b) :: rest) k v = (k, v) :: rest by simp [dinsert, hp]]
        by_cases hk : k' = k
        · simp [List.lookup, hk]
        · have hka : ¬ k' = a := fun he => hk (he.trans hp)
          simp [List.lookup, beq_false_of_ne hk, beq_false_of_ne hka, hk]
      · rw [show dinsert ((a, b) :: rest) k v = (a, b) :: dinsert rest k v by
          simp [dinsert, hp]]
        by_cases hk : k' = a
        · have hkk : ¬ k' = k := fun he => hp (hk.symm.trans he)
          simp [List.lookup, hk, hkk, hp]
        · simp [List.lookup, beq_false_of_ne hk, ih]

lemma lookup_loss_base (ids : List String) :
    ∀ (d : List (String × String)) (k : String),
      (loss_base d ids).lookup k
        = if k ∈ ids then some (default_loss k) else d.lookup k := by
  induction ids with
  | nil => intro d k; simp [loss_base]
  | cons x xs ih =>
      intro d k
      rw [loss_base, ih, lookup_dinsert]
      by_cases hx : k ∈ xs
      · simp [hx]
      · by_cases hk : k = x
        · subst hk
          simp [hx]
        · simp [hx, hk]

lemma lookup_loss_override_not_mem :
    ∀ (kvs : List (String × String)) (d : List (String × String)) (k : String),
      k ∉ kvs.map Prod.fst → (loss_override d kvs).lookup k = d.lookup k := by
  intro kvs
  induction kvs with
  | nil => intro d k _; rfl
  | cons kv rest ih =>
      intro d k hk
      simp only [List.map_cons, List.mem_cons, not_or] at hk
      rw [loss_override, ih _ _ hk.2, lookup_dinsert, if_neg hk.1]

lemma lookup_loss_override_mem :
    ∀ (kvs : List (String × String)), (kvs.map Prod.fst).Nodup →
      ∀ (d : List (String × String)) (kv : String × String), kv ∈ kvs →
        (loss_override d kvs).lookup kv.1 = some kv.2 := by
  intro kvs
  induction kvs with
  | nil => intro _ d kv h; simp at h
  | cons kv0 rest ih =>
      intro hnd d kv hm
      rw [List.map_cons] at hnd
      obtain ⟨hn0, hndr⟩ := List.nodup_cons.mp hnd
      rcases List.mem_cons.mp hm with rfl | hm'
      · rw [loss_override, lookup_loss_override_not_mem rest _ _ hn0,
          lookup_dinsert, if_pos rfl]
      · exact ih hndr _ kv hm'

lemma lookup_loss_override_isSome :
    ∀ (kvs d : List (String × String)) (k : String),
      ((loss_override d kvs).lookup k).isSome = true
        ↔ k ∈ kvs.map Prod.fst ∨ (d.lookup k).isSome = true := by
  intro kvs
  induction kvs with
  | nil => intro d k; simp [loss_override]
  | cons kv rest ih =>
      intro d k
      rw [loss_override, ih]
      by_cases hk : k = kv.1 <;> simp [lookup_dinsert, hk]

lemma lookup_map_value (v : String) :
    ∀ (l : List (String × String)) (k : String),
      (l.map (fun p => (p.1, v))).lookup k = (l.lookup k).map (fun _ => v) := by
  intro l
  induction l with
  | nil => intro k; rfl
  | cons p rest ih =>
      intro k
      obtain ⟨a, b⟩ := p
      by_cases hk : k = a
      · simp [List.lookup, hk]
      · simp [List.lookup, beq_false_of_ne hk, ih]

/-- C9 (amended).  `loss_from_ids` defaults every id starting with `'s'` to
`'mse'` and every other id to `'binary_crossentropy'`; with no spec the key
set is exactly the ids; a dict spec overrides (or *adds*) exactly the keys
it mentions, so the key set is the ids together with the dict's keys — not
always exactly the ids; a non-dict spec replaces the loss of every id with
that single value. -/
theorem claim_C9 (ids : List String) (kvs : List (String × String)) (v k : String)
    (hnd : (kvs.map Prod.fst).Nodup) :
    ((loss_from_ids ids .noSpec).lookup k
        = if k ∈ ids then some (default_loss k) else none)
    ∧ (default_loss k
        = if startswith k "s" then "mse" else "binary_crossentropy")
    ∧ (((loss_from_ids ids (.dict kvs)).lookup k).isSome = true
        ↔ k ∈ ids ∨ k ∈ kvs.map Prod.fst)
    ∧ (k ∉ kvs.map Prod.fst →
        (loss_from_ids ids (.dict kvs)).lookup k
          = (loss_from_ids ids .noSpec).lookup k)
    ∧ (∀ kv ∈ kvs, (loss_from_ids ids (.dict kvs)).lookup kv.1 = some kv.2)
    ∧ ((loss_from_ids ids (.single v)).lookup k = if k ∈ ids then some v else none) := by
  have hbase : ∀ k', (loss_base [] ids).lookup k'
      = if k' ∈ ids then some (default_loss k') else none := by
    intro k'
    rw [lookup_loss_base ids [] k']
    rfl
  refine ⟨hbase k, rfl, ?_, ?_, ?_, ?_⟩
  · rw [show loss_from_ids ids (.dict kvs) = loss_override (loss_base [] ids) kvs
      from rfl, lookup_loss_override_isSome]
    have := hbase k
    by_cases hk : k ∈ ids <;> simp [this, hk, Or.comm]
  · intro hkm
    rw [show loss_from_ids ids (.dict kvs) = loss_override (loss_base [] ids) kvs
      from rfl, lookup_loss_override_not_mem kvs _ _ hkm]
    rfl
  · intro kv hm
    exact lookup_loss_override_mem kvs hnd _ kv hm
  · rw [show loss_from_ids ids (.single v) = (loss_base [] ids).map (fun p => (p.1, v))
      from rfl, lookup_map_value, hbase k]
    by_cases hk : k ∈ ids <;> simp [hk]

/-- C9 counterexample: with no ids and the dict spec `{'a': 'x'}`, the
returned dict has key set `{'a'}`, not the (empty) id set — a dict spec can
add keys, so the key set is not always exactly the given ids. -/
theorem claim_C9_counterexample :
    (loss_from_ids [] (.dict [("a", "x")])).map Prod.fst = ["a"]
    ∧ ¬ ("a" ∈ ([] : List String)) := ⟨rfl, by simp⟩

/-- C9 witness: the amended theorem applied to concrete ids and a concrete
dict spec. -/
theorem claim_C9_witness :
    (loss_from_ids ["s1_y", "c1_y"] .noSpec).lookup "s1_y" = some "mse"
    ∧ (loss_from_ids ["s1_y", "c1_y"] (.dict [("c1_y", "hinge")])).lookup "c1_y"
        = some "hinge" := by
  have h := claim_C9 ["s1_y", "c1_y"] [("c1_y", "hinge")] "poisson" "s1_y" (by decide)
  exact ⟨h.1.trans (by decide), h.2.2.2.2.1 ("c1_y", "hinge") (by decide)⟩

/-- C10.  With `nb_batch ≥ 1`, `0 ≤ batch_index < nb_batch` and `s > 0`,
`progress` returns a message exactly when `batch_index + 1` is 1, is
`nb_batch`, or is divisible by `max(1, ceil(nb_batch / s))`; in particular
the first and last batches always produce one. -/
theorem claim_C10 (b n s : Nat) (hn : 1 ≤ n) (hb : b < n) (hs : 0 < s) :
    ((progress b n s).isSome
      ↔ (b + 1 = 1 ∨ b + 1 = n ∨ (max 1 ((n + s - 1) / s)) ∣ (b + 1)))
    ∧ (progress 0 n s).isSome
    ∧ (progress (n - 1) n s).isSome := by
  have hdvd : ((max 1 ((n + s - 1) / s)) ∣ (b + 1))
      ↔ (b + 1) % (max 1 ((n + s - 1) / s)) = 0 :=
    Nat.dvd_iff_mod_eq_zero
  refine ⟨?_, ?_, ?_⟩
  · rw [hdvd]
    by_cases hc : (b + 1 = 1 ∨ b + 1 = n ∨ (b + 1) % (max 1 ((n + s - 1) / s)) = 0)
    · simp [progress, hc]
    · simp [progress, hc]
  · simp [progress]
  · have h1 : n - 1 + 1 = n := by omega
    simp [progress, h1]

/-- C10 witness: the theorem applied at batch 4 of 10 with the default
`s = 20`. -/
theorem claim_C10_witness :
    ((progress 4 10 20).isSome
      ↔ (4 + 1 = 1 ∨ 4 + 1 = 10 ∨ (max 1 ((10 + 20 - 1) / 20)) ∣ (4 + 1)))
    ∧ (progress 0 10 20).isSome
    ∧ (progress (10 - 1) 10 20).isSome :=
  claim_C10 4 10 20 (by decide) (by decide) (by decide)

end DeepCpG
